import Mathlib

/-!
Host-routed preview proxy: a shallow embedding of `main.go`.

The request path of the proxy is modelled by pure functions over explicit state.
A Go `string` is modelled as a list of characters (`Str`); every separator the
source searches for (`:`, `.`, `-`, `/`) is a one-byte ASCII character, so the
byte-level slicing of the source and the character-level slicing of the model
cut at the same places.  The collaborators that live outside `main.go` (the
control-plane HTTP exchange, `url.Parse`, the JSON decoder, the clock, the
embedded `error.html`) enter as explicit parameters.
-/

set_option autoImplicit false

namespace DaytonaProxy

/-- A Go string. -/
abbrev Str := List Char

/-- A Go `error` value: `none` is `nil`, `some msg` an error carrying `msg`. -/
abbrev error := Option Str

/-! ## The package `strings`, for one-byte separators -/

namespace strings

/-- Go `strings.Index(s, sep)` for a one-byte `sep`: the position of the first
occurrence of `sep` in `s`, or `-1` when there is none. -/
def Index (s : Str) (sep : Char) : Int :=
  if s.indexOf sep < s.length then (s.indexOf sep : Int) else -1

/-- Go `strings.Count(s, sep)` for a one-byte `sep`. -/
def Count (s : Str) (sep : Char) : Nat :=
  s.count sep

/-- The loop of Go `genSplit`: at most `n` cuts, each at the next occurrence of
`sep`; what is left after the last cut is the final piece. -/
def genSplitLoop (sep : Char) : Nat → Str → List Str
  | 0, s => [s]
  | n + 1, s =>
    let m := Index s sep
    if m < 0 then [s]
    else s.take m.toNat :: genSplitLoop sep n (s.drop (m.toNat + 1))

/-- Go `genSplit(s, sep, 0, n)` for a one-byte `sep`: `n = 0` gives no pieces,
`n < 0` means all pieces, and `n` is capped at `len(s) + 1`. -/
def genSplit (s : Str) (sep : Char) (n : Int) : List Str :=
  if n = 0 then []
  else
    let n := if n < 0 then (Count s sep : Int) + 1 else n
    let n := if n > (s.length : Int) + 1 then (s.length : Int) + 1 else n
    genSplitLoop sep (n - 1).toNat s

/-- Go `strings.Split(s, sep)`. -/
def Split (s : Str) (sep : Char) : List Str :=
  genSplit s sep (-1)

/-- Go `strings.SplitN(s, sep, n)`. -/
def SplitN (s : Str) (sep : Char) (n : Int) : List Str :=
  genSplit s sep n

/-- Go `strings.HasSuffix(s, suffix)` for a one-byte suffix. -/
def HasSuffix (s : Str) (c : Char) : Bool :=
  s.getLast? == some c

/-- Go `strings.HasPrefix(s, prefix)` for a one-byte prefix. -/
def HasPrefix (s : Str) (c : Char) : Bool :=
  s.head? == some c

end strings

/-! ## Input validation -/

/-- A compiled pattern of the shape `^[...]+$`: the inclusive character ranges of
its single bracket expression. -/
structure Regexp where
  ranges : List (Char × Char)

/-- Membership of a character in the bracket expression of the pattern. -/
def Regexp.inClass (re : Regexp) (c : Char) : Bool :=
  re.ranges.any fun r => decide (r.1.val ≤ c.val) && decide (c.val ≤ r.2.val)

/-- Go `(*Regexp).MatchString` for a pattern `^[...]+$`: Go's `$` (without the `m`
flag) matches at the end of the text only, so the whole string must be a non-empty
run of characters of the class. -/
def Regexp.MatchString (re : Regexp) (s : Str) : Bool :=
  !s.isEmpty && s.all re.inClass

/-- The pattern `^[a-zA-Z0-9-_]+$`; after the range `0-9` the `-` and the `_` are
literal members of the class. -/
def sandboxIDRegex : Regexp :=
  ⟨[('a', 'z'), ('A', 'Z'), ('0', '9'), ('-', '-'), ('_', '_')]⟩

/-- The pattern `^[0-9]+$`. -/
def portRegex : Regexp :=
  ⟨[('0', '9')]⟩

/-- The function `validateInputs` of `main.go`. -/
def validateInputs (sandboxID port : Str) : error :=
  if sandboxID = [] ∨ port = [] then
    some "sandbox ID and port cannot be empty".toList
  else if !sandboxIDRegex.MatchString sandboxID || !portRegex.MatchString port then
    some "invalid format".toList
  else
    none

/-! ## Host decoding -/

/-- The function `getSandboxIdAndPortFromUrl` of `main.go`; the result is the pair
`(sandboxId, port)`. -/
def getSandboxIdAndPortFromUrl (host : Str) : Str × Str :=
  let colonIndex := strings.Index host ':'
  let host := if colonIndex ≠ -1 then host.take colonIndex.toNat else host
  let parts := strings.Split host '.'
  if parts.length < 1 then ([], [])
  else
    let subdomain := parts.getD 0 []
    let subdomainParts := strings.SplitN subdomain '-' 2
    if subdomainParts.length ≠ 2 then ([], [])
    else
      let port := subdomainParts.getD 0 []
      let sandboxId := subdomainParts.getD 1 []
      (sandboxId, port)

/-- The function `singleJoiningSlash` of `main.go`. -/
def singleJoiningSlash (a b : Str) : Str :=
  let aSlash := strings.HasSuffix a '/'
  let bSlash := strings.HasPrefix b '/'
  if aSlash && bSlash then a ++ b.drop 1
  else if !aSlash && !bSlash then a ++ "/".toList ++ b
  else a ++ b

/-! ## The character classes of the specification -/

/-- The specification's class `[A-Za-z0-9_-]`, written out letter by letter. -/
def specSandboxIdChar (c : Char) : Prop :=
  c.isAlphanum = true ∨ c = '_' ∨ c = '-'

/-- The specification's class `[0-9]`. -/
def specPortChar (c : Char) : Prop :=
  c.isDigit = true

instance (c : Char) : Decidable (specSandboxIdChar c) := by
  unfold specSandboxIdChar; infer_instance

instance (c : Char) : Decidable (specPortChar c) := by
  unfold specPortChar; infer_instance

/-- The subdomain label of a host in the specification's words: the text before
the first `:`, and of that the text before the first `.`. -/
def specLabel (host : Str) : Str :=
  (host.takeWhile (fun c => c != ':')).takeWhile (fun c => c != '.')

/-- A parse of `h` by the specification's host grammar
`^<port>-<sandboxId>(\.[^.]+)*(:[0-9]+)?$`: `h` is `port`, a dash, `sandboxId`, then
each of `labels` led by a dot, then `tail`, which is empty or a colon and digits. -/
def SpecHostParse (h port sandboxId : Str) (labels : List Str) (tail : Str) : Prop :=
  h = port ++ '-' :: sandboxId ++ (labels.map fun l => '.' :: l).flatten ++ tail ∧
    (port ≠ [] ∧ ∀ c ∈ port, specPortChar c) ∧
    (sandboxId ≠ [] ∧ ∀ c ∈ sandboxId, specSandboxIdChar c) ∧
    (∀ l ∈ labels, l ≠ [] ∧ '.' ∉ l) ∧
    (tail = [] ∨ ∃ ds, tail = ':' :: ds ∧ ds ≠ [] ∧ ∀ c ∈ ds, specPortChar c)

/-- The host `h` matches the specification's host grammar. -/
def SpecHostGrammar (h : Str) : Prop :=
  ∃ port sandboxId labels tail, SpecHostParse h port sandboxId labels tail

/-- The decode-then-validate gate of `Proxy.ServeHTTP` lets the host through. -/
def gateAccepts (host : Str) : Prop :=
  validateInputs (getSandboxIdAndPortFromUrl host).1 (getSandboxIdAndPortFromUrl host).2 = none

instance (host : Str) : Decidable (gateAccepts host) := by
  unfold gateAccepts; infer_instance

/-- The join of `a` and `b` inside `r` carries a double slash: `a` is not empty, and
the character of `r` where `a` ends and the character that follows it are both `/`. -/
def doubleSlashAtJoin (a r : Str) : Prop :=
  a ≠ [] ∧ r[a.length - 1]? = some '/' ∧ r[a.length]? = some '/'

instance (a r : Str) : Decidable (doubleSlashAtJoin a r) := by
  unfold doubleSlashAtJoin; infer_instance

/-! ## HTTP data -/

/-- A Go `http.Header`, a map from a header name to the list of its values.  Every
key `main.go` passes to `Set` and `Del` is already in canonical MIME form, where
Go's key canonicalisation is the identity, so keys are used as they are. -/
abbrev Header := Str → Option (List Str)

/-- The empty header map. -/
def Header.empty : Header := fun _ => none

/-- Go `Header.Set(key, value)`: the entry of `key` becomes the single `value`. -/
def Header.Set (h : Header) (key value : Str) : Header :=
  fun k => if k = key then some [value] else h k

/-- Go `Header.Del(key)`. -/
def Header.Del (h : Header) (key : Str) : Header :=
  fun k => if k = key then none else h k

/-- Go `Header.Values(key)`: all values stored for `key`. -/
def Header.Values (h : Header) (key : Str) : List Str :=
  (h key).getD []

/-- The fields of a Go `url.URL` that `main.go` reads or writes. -/
structure URL where
  Scheme : Str
  Host : Str
  Path : Str

/-- The fields of a Go `http.Request` that `main.go` reads or writes. -/
structure Request where
  URL : DaytonaProxy.URL
  Host : Str
  Header : DaytonaProxy.Header

/-- The fields of a Go `http.Response` that `main.go` reads or writes. -/
structure Response where
  StatusCode : Nat
  Header : DaytonaProxy.Header
  Body : Str

/-- The type `PreviewResponse` of `main.go`. -/
structure PreviewResponse where
  URL : Str
  Token : Str
deriving DecidableEq

/-- The type `Config` of `main.go`. -/
structure Config where
  DaytonaAPIURL : Str
  DaytonaAPIKey : Str
  Port : Str

/-- Go `len(s)`: the number of bytes of the UTF-8 text `s`. -/
def len (s : Str) : Nat :=
  (String.mk s).utf8ByteSize

/-- Go `fmt.Sprintf("%d", n)` for a non-negative `n`. -/
def sprintd (n : Nat) : Str :=
  (Nat.repr n).toList

/-! ## The response interceptor -/

/-- The method `serveErrorPage` of `main.go`; `errorPageHTML` is the embedded
`error.html`.  The response is updated in place and the returned error is `nil`. -/
def serveErrorPage (errorPageHTML : Str) (resp : Response) : Response × error :=
  let resp := { resp with StatusCode := 502 }
  let resp := { resp with
    Header := Header.Set resp.Header "Content-Type".toList "text/html; charset=utf-8".toList }
  let resp := { resp with
    Header := Header.Set resp.Header "Content-Length".toList (sprintd (len errorPageHTML)) }
  let resp := { resp with Header := Header.Del resp.Header "Content-Encoding".toList }
  let resp := { resp with Body := errorPageHTML }
  (resp, none)

/-- The `ModifyResponse` closure installed by `NewProxy`. -/
def ModifyResponse (errorPageHTML : Str) (resp : Response) : Response × error :=
  if resp.StatusCode ≠ 200 then serveErrorPage errorPageHTML resp
  else (resp, none)

/-! ## The preview cache (`patrickmn/go-cache`) -/

/-- A cache item: the stored object and its deadline in nanoseconds, `0` for none. -/
structure Item where
  Object : PreviewResponse
  Expiration : Nat

/-- A `cache.Cache`: its default time to live and its item map. -/
structure Cache where
  defaultExpiration : Int
  items : Str → Option Item

/-- The sentinel `cache.DefaultExpiration`. -/
def DefaultExpiration : Int := 0

/-- The duration `2 * time.Minute` in nanoseconds. -/
def twoMinutes : Int := 2 * 60 * 1000000000

/-- Go `cache.New(defaultExpiration, _)`: an empty cache. -/
def Cache.New (defaultExpiration : Int) : Cache :=
  ⟨defaultExpiration, fun _ => none⟩

/-- Go `(*Cache).Get(k)` at clock reading `now`: an item past its deadline is absent. -/
def Cache.Get (c : Cache) (now : Nat) (k : Str) : Option PreviewResponse :=
  match c.items k with
  | none => none
  | some item =>
    if item.Expiration > 0 ∧ now > item.Expiration then none else some item.Object

/-- Go `(*Cache).Set(k, x, d)` at clock reading `now`. -/
def Cache.Set (c : Cache) (now : Nat) (k : Str) (x : PreviewResponse) (d : Int) : Cache :=
  let d := if d = DefaultExpiration then c.defaultExpiration else d
  let e := if d > 0 then now + d.toNat else 0
  { c with items := fun k' => if k' = k then some ⟨x, e⟩ else c.items k' }

/-! ## The preview resolver -/

/-- The control-plane request built by `getPreview`. -/
structure APIRequest where
  Method : Str
  URL : Str
  Header : DaytonaProxy.Header

/-- The control-plane response as `getPreview` sees it. -/
structure APIResponse where
  StatusCode : Nat
  Body : Str

/-- The collaborators of the request path that live outside `main.go`. -/
structure World where
  /-- The clock reading when the cache is consulted. -/
  nowGet : Nat
  /-- The clock reading when the cache is written. -/
  nowSet : Nat
  /-- The error of `http.NewRequestWithContext(ctx, method, url, nil)`, if any. -/
  NewRequest : Str → Str → error
  /-- The exchange `apiClient.Do(req)`: a transport error or a response. -/
  Do : APIRequest → Except Str APIResponse
  /-- The decoding `json.NewDecoder(body).Decode(&preview)`. -/
  jsonDecode : Str → Except Str PreviewResponse
  /-- The parser `url.Parse`. -/
  urlParse : Str → Except Str URL

/-- What one call of `getPreview` leaves behind: the returned pair as an `Except`,
the cache afterwards, and the control-plane requests it sent, in order. -/
structure PreviewResult where
  result : Except Str PreviewResponse
  cache : Cache
  calls : List APIRequest

/-- The local `cacheKey` of `getPreview`: `fmt.Sprintf("%s-%s", sandboxId, port)`. -/
def cacheKey (sandboxId port : Str) : Str :=
  sandboxId ++ "-".toList ++ port

/-- The local `apiUrl` of `getPreview`. -/
def apiUrl (config : Config) (sandboxId port : Str) : Str :=
  config.DaytonaAPIURL ++ "/sandbox/".toList ++ sandboxId ++ "/ports/".toList ++ port ++
    "/preview-url".toList

/-- The local `req` of `getPreview`: a `GET` of `apiUrl` with the bearer key. -/
def apiRequest (config : Config) (sandboxId port : Str) : APIRequest :=
  { Method := "GET".toList, URL := apiUrl config sandboxId port,
    Header := Header.Set Header.empty "Authorization".toList
      ("Bearer ".toList ++ config.DaytonaAPIKey) }

/-- The method `getPreview` of `main.go`. -/
def getPreview (config : Config) (w : World) (c : Cache) (sandboxId port : Str) :
    PreviewResult :=
  match c.Get w.nowGet (cacheKey sandboxId port) with
  | some x => ⟨.ok x, c, []⟩
  | none =>
    match w.NewRequest "GET".toList (apiUrl config sandboxId port) with
    | some err => ⟨.error err, c, []⟩
    | none =>
      match w.Do (apiRequest config sandboxId port) with
      | .error err => ⟨.error err, c, [apiRequest config sandboxId port]⟩
      | .ok resp =>
        if resp.StatusCode ≠ 200 then
          ⟨.error ("API returned status ".toList ++ sprintd resp.StatusCode), c,
            [apiRequest config sandboxId port]⟩
        else
          match w.jsonDecode resp.Body with
          | .error err => ⟨.error err, c, [apiRequest config sandboxId port]⟩
          | .ok preview =>
            ⟨.ok preview,
              c.Set w.nowSet (cacheKey sandboxId port) preview DefaultExpiration,
              [apiRequest config sandboxId port]⟩

/-! ## The request director -/

/-- The method `director` of `main.go`: the outbound request, with the cache and the
control-plane requests that resolving the preview left behind. -/
def director (config : Config) (w : World) (c : Cache) (req : Request) :
    Request × Cache × List APIRequest :=
  let decoded := getSandboxIdAndPortFromUrl req.Host
  let sandboxId := decoded.1
  let port := decoded.2
  let r := getPreview config w c sandboxId port
  match r.result with
  | .error _ =>
    ({ req with URL := { req.URL with Host := "invalid.local".toList } }, r.cache, r.calls)
  | .ok preview =>
    match w.urlParse preview.URL with
    | .error _ =>
      ({ req with URL := { req.URL with Host := "invalid.local".toList } }, r.cache, r.calls)
    | .ok targetUrl =>
      let req := { req with URL := { req.URL with Scheme := targetUrl.Scheme } }
      let req := { req with URL := { req.URL with Host := targetUrl.Host } }
      let req := { req with
        URL := { req.URL with Path := singleJoiningSlash targetUrl.Path req.URL.Path } }
      let req := { req with Host := targetUrl.Host }
      let req := { req with
        Header := Header.Set req.Header "X-Daytona-Preview-Token".toList preview.Token }
      (req, r.cache, r.calls)

/-! ## The front dispatcher -/

/-- The state of a Go `http.ResponseWriter`: the header map, the status line once it
is written, and the body written so far. -/
structure ResponseWriter where
  Header : DaytonaProxy.Header
  StatusCode : Option Nat
  Body : Str

/-- The writer a handler receives: nothing set, nothing written. -/
def ResponseWriter.fresh : ResponseWriter :=
  ⟨Header.empty, none, []⟩

/-- Go `w.WriteHeader(code)`; only the first call counts. -/
def ResponseWriter.WriteHeader (w : ResponseWriter) (code : Nat) : ResponseWriter :=
  match w.StatusCode with
  | none => { w with StatusCode := some code }
  | some _ => w

/-- Go `w.Write(b)`; a write before `WriteHeader` sends status `200` first. -/
def ResponseWriter.Write (w : ResponseWriter) (b : Str) : ResponseWriter :=
  let w := w.WriteHeader 200
  { w with Body := w.Body ++ b }

/-- Go `http.Error(w, error, code)`: plain-text headers, the status, then
`fmt.Fprintln(w, error)`, which ends the message with a newline. -/
def httpError (w : ResponseWriter) (err : Str) (code : Nat) : ResponseWriter :=
  let w := { w with Header := Header.Del w.Header "Content-Length".toList }
  let w := { w with
    Header := Header.Set w.Header "Content-Type".toList "text/plain; charset=utf-8".toList }
  let w := { w with
    Header := Header.Set w.Header "X-Content-Type-Options".toList "nosniff".toList }
  let w := w.WriteHeader code
  w.Write (err ++ "\n".toList)

/-- Go `json.NewEncoder(w).Encode(m)` for a one-entry `map[string]string` whose key
and value need no escaping: the object, followed by a newline. -/
def jsonEncode (w : ResponseWriter) (key value : Str) : ResponseWriter :=
  w.Write ("\x7b\"".toList ++ key ++ "\":\"".toList ++ value ++ "\"\x7d\n".toList)

/-- How `Proxy.ServeHTTP` ends: it answered by itself, or handed the request to the
reverse proxy. -/
inductive Served where
  | responded (w : ResponseWriter)
  | forwarded (w : ResponseWriter) (r : Request)

/-- The method `Proxy.ServeHTTP` of `main.go`. -/
def ServeHTTP (w : ResponseWriter) (r : Request) : Served :=
  if r.URL.Path = "/health".toList then
    let w := { w with
      Header := Header.Set w.Header "Content-Type".toList "application/json".toList }
    let w := jsonEncode w "status".toList "ok".toList
    .responded w
  else
    let decoded := getSandboxIdAndPortFromUrl r.Host
    let sandboxID := decoded.1
    let port := decoded.2
    match validateInputs sandboxID port with
    | some _ => .responded (httpError w "Bad Request".toList 400)
    | none => .forwarded w r

/-- What a finished exchange shows the client: the status and the body once
`Proxy.ServeHTTP` answered by itself, nothing when it forwarded. -/
def Served.answer : Served → Option (Option Nat × Str)
  | .responded w => some (w.StatusCode, w.Body)
  | .forwarded _ _ => none

/-- Whether `Proxy.ServeHTTP` handed the request to the reverse proxy. -/
def Served.isForwarded : Served → Bool
  | .responded _ => false
  | .forwarded _ _ => true

/-! ## Concrete collaborators for evaluating the model -/

/-- A configuration with a control plane at `https://api.test`. -/
def demoConfig : Config :=
  ⟨"https://api.test".toList, "k".toList, "3000".toList⟩

/-- The preview `\x7b"url":"https://u.internal/app","token":"T"\x7d`. -/
def demoPreview : PreviewResponse :=
  ⟨"https://u.internal/app".toList, "T".toList⟩

/-- A world whose control plane answers every request with `status`, whose body
decodes to `demoPreview`, and whose URL parser knows the URL of `demoPreview`. -/
def demoWorld (status : Nat) : World where
  nowGet := 1000
  nowSet := 2000
  NewRequest := fun _ _ => none
  Do := fun _ => .ok ⟨status, "body".toList⟩
  jsonDecode := fun _ => .ok demoPreview
  urlParse := fun u =>
    if u = "https://u.internal/app".toList then
      .ok ⟨"https".toList, "u.internal".toList, "/app".toList⟩
    else .error "parse".toList

/-- A client request for `/index.html` on host `8080-abc123.example.com` that brings
two preview-token values of its own. -/
def demoRequest : Request where
  URL := ⟨[], [], "/index.html".toList⟩
  Host := "8080-abc123.example.com".toList
  Header := Header.Set Header.empty "X-Daytona-Preview-Token".toList "forged".toList

/-- An empty cache with the two-minute default of `NewProxy`. -/
def demoCache : Cache :=
  Cache.New twoMinutes

/-! ## Lemmas on the string primitives -/

theorem take_indexOf (c : Char) (s : Str) :
    s.take (s.indexOf c) = s.takeWhile (fun x => x != c) := by
  induction s with
  | nil => rfl
  | cons a t ih =>
    by_cases h : a = c
    · subst h; simp [List.indexOf_cons]
    · have h2 : (a == c) = false := by simpa using h
      simp [List.indexOf_cons, h2, h, List.takeWhile_cons, ih]

theorem drop_indexOf (c : Char) (s : Str) :
    s.drop (s.indexOf c) = s.dropWhile (fun x => x != c) := by
  induction s with
  | nil => rfl
  | cons a t ih =>
    by_cases h : a = c
    · subst h; simp [List.indexOf_cons, List.dropWhile_cons]
    · have h2 : (a == c) = false := by simpa using h
      simp [List.indexOf_cons, h2, h, List.dropWhile_cons, ih]

theorem Index_of_mem {c : Char} {s : Str} (h : c ∈ s) :
    strings.Index s c = (s.indexOf c : Int) := by
  simp [strings.Index, List.indexOf_lt_length.2 h]

theorem Index_of_not_mem {c : Char} {s : Str} (h : c ∉ s) :
    strings.Index s c = -1 := by
  have : ¬ s.indexOf c < s.length := fun hlt => h (List.indexOf_lt_length.1 hlt)
  simp [strings.Index, this]

theorem takeWhile_ne_of_not_mem {c : Char} {s : Str} (h : c ∉ s) :
    s.takeWhile (fun x => x != c) = s := by
  induction s with
  | nil => rfl
  | cons a t ih =>
    have ha : a ≠ c := fun e => h (by simp [e])
    have ht : c ∉ t := fun e => h (by simp [e])
    simp [List.takeWhile_cons, ha, ih ht]

/-- One step of the splitting loop, in closed form. -/
theorem genSplitLoop_succ (sep : Char) (n : Nat) (s : Str) :
    strings.genSplitLoop sep (n + 1) s =
      if sep ∈ s then
        s.takeWhile (fun x => x != sep) ::
          strings.genSplitLoop sep n ((s.dropWhile (fun x => x != sep)).drop 1)
      else [s] := by
  by_cases h : sep ∈ s
  · have hd : s.drop (s.indexOf sep + 1) = (s.dropWhile (fun x => x != sep)).drop 1 := by
      rw [← drop_indexOf, List.drop_drop, Nat.add_comm]
    simp only [strings.genSplitLoop, Index_of_mem h, h, if_true]
    have : ¬ ((s.indexOf sep : Int) < 0) := by omega
    simp only [this, if_false, Int.toNat_ofNat, take_indexOf, hd]
  · simp [strings.genSplitLoop, Index_of_not_mem h, h]

/-- Element 0 of `strings.Split(s, sep)` is the text before the first `sep`. -/
theorem Split_head (s : Str) (sep : Char) :
    (strings.Split s sep).getD 0 [] = s.takeWhile (fun x => x != sep) ∧
      1 ≤ (strings.Split s sep).length := by
  have hc : strings.Count s sep ≤ s.length := List.count_le_length _ _
  have e : strings.Split s sep = strings.genSplitLoop sep (strings.Count s sep) s := by
    unfold strings.Split strings.genSplit
    have h1 : ¬ ((-1 : Int) = 0) := by decide
    have h2 : ((-1 : Int) < 0) := by decide
    have h3 : ¬ ((strings.Count s sep : Int) + 1 > (s.length : Int) + 1) := by omega
    simp only [h1, h2, h3, if_true, if_false]
    congr 1
    omega
  rw [e]
  by_cases h : sep ∈ s
  · obtain ⟨k, hk⟩ : ∃ k, strings.Count s sep = k + 1 := by
      have : 0 < s.count sep := List.count_pos_iff.2 h
      exact ⟨s.count sep - 1, by unfold strings.Count; omega⟩
    rw [hk, genSplitLoop_succ]
    simp [h]
  · have h0 : strings.Count s sep = 0 := List.count_eq_zero_of_not_mem h
    rw [h0]
    simp [strings.genSplitLoop, takeWhile_ne_of_not_mem h]

/-- The two-piece split at the first `sep`, or the whole string when `sep` is absent. -/
theorem SplitN_two (s : Str) (sep : Char) :
    strings.SplitN s sep 2 =
      if sep ∈ s then
        [s.takeWhile (fun x => x != sep), (s.dropWhile (fun x => x != sep)).drop 1]
      else [s] := by
  unfold strings.SplitN strings.genSplit
  have h1 : ¬ ((2 : Int) = 0) := by decide
  have h2 : ¬ ((2 : Int) < 0) := by decide
  simp only [h1, h2, if_false]
  cases s with
  | nil => simp [strings.genSplitLoop]
  | cons a t =>
    have h3 : ¬ ((2 : Int) > (((a :: t).length : Nat) : Int) + 1) := by
      simp only [List.length_cons]; omega
    simp only [h3, if_false]
    have h4 : ((2 : Int) - 1).toNat = 0 + 1 := by decide
    rw [h4, genSplitLoop_succ]
    simp [strings.genSplitLoop]

theorem char_eq_iff_val (c d : Char) : c = d ↔ (d.val ≤ c.val ∧ c.val ≤ d.val) := by
  constructor
  · rintro rfl; exact ⟨UInt32.le_refl _, UInt32.le_refl _⟩
  · rintro ⟨h1, h2⟩
    exact Char.ext (UInt32.le_antisymm h2 h1)

theorem sandboxIDRegex_inClass (c : Char) :
    sandboxIDRegex.inClass c = true ↔ specSandboxIdChar c := by
  unfold specSandboxIdChar
  rw [char_eq_iff_val c '_', char_eq_iff_val c '-']
  simp only [Regexp.inClass, sandboxIDRegex, List.any_cons, List.any_nil, Bool.or_false,
    Bool.or_eq_true, Bool.and_eq_true, decide_eq_true_eq, Char.isAlphanum, Char.isAlpha,
    Char.isUpper, Char.isLower, Char.isDigit, ge_iff_le]
  tauto

theorem portRegex_inClass (c : Char) :
    portRegex.inClass c = true ↔ specPortChar c := by
  unfold specPortChar
  simp only [Regexp.inClass, portRegex, List.any_cons, List.any_nil, Bool.or_false,
    Bool.and_eq_true, decide_eq_true_eq, Char.isDigit, ge_iff_le]
  exact Iff.rfl

theorem sandboxIDRegex_match (s : Str) :
    sandboxIDRegex.MatchString s = true ↔ s ≠ [] ∧ ∀ c ∈ s, specSandboxIdChar c := by
  simp only [Regexp.MatchString, Bool.and_eq_true, Bool.not_eq_true', List.isEmpty_eq_false,
    List.all_eq_true, sandboxIDRegex_inClass]

theorem portRegex_match (s : Str) :
    portRegex.MatchString s = true ↔ s ≠ [] ∧ ∀ c ∈ s, specPortChar c := by
  simp only [Regexp.MatchString, Bool.and_eq_true, Bool.not_eq_true', List.isEmpty_eq_false,
    List.all_eq_true, portRegex_inClass]

/-- The validator accepts exactly the non-empty pairs over the two classes. -/
theorem validateInputs_eq_none (sandboxID port : Str) :
    validateInputs sandboxID port = none ↔
      (sandboxID ≠ [] ∧ ∀ c ∈ sandboxID, specSandboxIdChar c) ∧
        (port ≠ [] ∧ ∀ c ∈ port, specPortChar c) := by
  rw [← sandboxIDRegex_match, ← portRegex_match]
  unfold validateInputs
  by_cases h1 : sandboxID = [] ∨ port = []
  · rw [if_pos h1]
    rcases h1 with h | h <;> subst h <;> simp [Regexp.MatchString]
  · rw [if_neg h1]
    cases hs : sandboxIDRegex.MatchString sandboxID <;>
      cases hp : portRegex.MatchString port <;> simp

/-! ## The decoder in closed form -/

theorem host_cut (host : Str) :
    (if strings.Index host ':' ≠ -1 then host.take (strings.Index host ':').toNat else host)
      = host.takeWhile (fun x => x != ':') := by
  by_cases h : ':' ∈ host
  · have hne : ((host.indexOf ':' : Nat) : Int) ≠ -1 := by omega
    rw [Index_of_mem h, if_pos hne, Int.toNat_ofNat, take_indexOf]
  · rw [Index_of_not_mem h, takeWhile_ne_of_not_mem h]
    simp

/-- The decoder as one case split on the subdomain label. -/
theorem decode_eq (host : Str) :
    getSandboxIdAndPortFromUrl host =
      if '-' ∈ (host.takeWhile (fun x => x != ':')).takeWhile (fun x => x != '.') then
        ((((host.takeWhile (fun x => x != ':')).takeWhile (fun x => x != '.')).dropWhile
            (fun x => x != '-')).drop 1,
          ((host.takeWhile (fun x => x != ':')).takeWhile (fun x => x != '.')).takeWhile
            (fun x => x != '-'))
      else ([], []) := by
  unfold getSandboxIdAndPortFromUrl
  simp only [host_cut]
  have hs := Split_head (host.takeWhile (fun x => x != ':')) '.'
  have hlen : ¬ (strings.Split (host.takeWhile (fun x => x != ':')) '.').length < 1 := by omega
  simp only [hlen, if_false, hs.1, SplitN_two]
  split_ifs with h <;> simp_all

theorem decode_eq_label (host : Str) :
    getSandboxIdAndPortFromUrl host =
      if '-' ∈ specLabel host then
        (((specLabel host).dropWhile (fun x => x != '-')).drop 1,
          (specLabel host).takeWhile (fun x => x != '-'))
      else ([], []) :=
  decode_eq host

/-- Cutting the label at a `-` that has no `-` before it. -/
theorem decode_of_label {host pre post : Str}
    (hl : (host.takeWhile (fun x => x != ':')).takeWhile (fun x => x != '.') = pre ++ '-' :: post)
    (hpre : '-' ∉ pre) : getSandboxIdAndPortFromUrl host = (post, pre) := by
  rw [decode_eq, hl]
  have hm : '-' ∈ pre ++ '-' :: post := by simp
  have h1 : (pre ++ '-' :: post).takeWhile (fun x => x != '-') = pre := by
    rw [List.takeWhile_append_of_pos]
    · simp [List.takeWhile_cons]
    · intro c hc
      have : c ≠ '-' := fun e => hpre (e ▸ hc)
      simpa using this
  have h2 : (pre ++ '-' :: post).dropWhile (fun x => x != '-') = '-' :: post := by
    rw [List.dropWhile_append_of_pos]
    · simp [List.dropWhile_cons]
    · intro c hc
      have : c ≠ '-' := fun e => hpre (e ▸ hc)
      simpa using this
  rw [if_pos hm, h1, h2]
  rfl

/-! ## Host decoding and validation -/

/-- C1: the decoder cuts the host at its first `:`, takes the text before the first
`.` as the label, and splits the label at its first `-`: the port is the text before
that dash, the sandbox id everything after it (later dashes kept); a label without a
dash gives the empty pair.  The host `8080-abc-def-ghi.example.com` gives sandbox id
`abc-def-ghi` and port `8080`. -/
theorem decoder_splits_label_at_first_dash (host : Str) :
    (getSandboxIdAndPortFromUrl host =
      if '-' ∈ (host.takeWhile (fun c => c != ':')).takeWhile (fun c => c != '.') then
        ((((host.takeWhile (fun c => c != ':')).takeWhile (fun c => c != '.')).dropWhile
            (fun c => c != '-')).drop 1,
          ((host.takeWhile (fun c => c != ':')).takeWhile (fun c => c != '.')).takeWhile
            (fun c => c != '-'))
      else ([], [])) ∧
    getSandboxIdAndPortFromUrl "8080-abc-def-ghi.example.com".toList
      = ("abc-def-ghi".toList, "8080".toList) :=
  ⟨decode_eq host, by decide⟩

theorem specPortChar_not_sep {c : Char} (h : specPortChar c) :
    c ≠ '.' ∧ c ≠ ':' ∧ c ≠ '-' := by
  refine ⟨?_, ?_, ?_⟩ <;> rintro rfl <;> exact absurd h (by decide)

theorem specSandboxIdChar_not_sep {c : Char} (h : specSandboxIdChar c) :
    c ≠ '.' ∧ c ≠ ':' := by
  refine ⟨?_, ?_⟩ <;> rintro rfl <;> exact absurd h (by decide)

theorem specLabel_eq (host : Str) :
    specLabel host = host.takeWhile (fun c => decide ((c != '.') = true ∧ (c != ':') = true)) := by
  unfold specLabel
  rw [List.takeWhile_takeWhile]

/-- A run without `:` and `.`, followed by nothing or by one of the two, is the label. -/
theorem specLabel_append {x r : Str} (hx : ∀ c ∈ x, c ≠ '.' ∧ c ≠ ':')
    (hr : r = [] ∨ ∃ t, r = '.' :: t ∨ r = ':' :: t) : specLabel (x ++ r) = x := by
  rw [specLabel_eq, List.takeWhile_append_of_pos]
  · rcases hr with rfl | ⟨t, rfl | rfl⟩ <;> simp [List.takeWhile_cons]
  · intro c hc
    have := hx c hc
    simp [this.1, this.2]

theorem flatten_dot_labels_head (labels : List Str) (tail : Str)
    (ht : tail = [] ∨ ∃ ds, tail = ':' :: ds ∧ ds ≠ [] ∧ ∀ c ∈ ds, specPortChar c) :
    (labels.map fun l => '.' :: l).flatten ++ tail = [] ∨
      ∃ t, (labels.map fun l => '.' :: l).flatten ++ tail = '.' :: t ∨
        (labels.map fun l => '.' :: l).flatten ++ tail = ':' :: t := by
  cases labels with
  | nil =>
    rcases ht with rfl | ⟨ds, rfl, _⟩
    · left; rfl
    · right; exact ⟨ds, Or.inr rfl⟩
  | cons l ls =>
    right
    exact ⟨l ++ (ls.map fun l => '.' :: l).flatten ++ tail, Or.inl (by simp)⟩

/-- Every parse by the host grammar puts `<port>-<sandboxId>` in the label. -/
theorem specLabel_of_parse {h port sandboxId : Str} {labels : List Str} {tail : Str}
    (hp : SpecHostParse h port sandboxId labels tail) :
    specLabel h = port ++ '-' :: sandboxId := by
  obtain ⟨rfl, ⟨_, hport⟩, ⟨_, hsid⟩, _, ht⟩ := hp
  rw [List.append_assoc]
  apply specLabel_append
  · intro c hc
    rcases List.mem_append.1 hc with hc | hc
    · exact ⟨(specPortChar_not_sep (hport c hc)).1, (specPortChar_not_sep (hport c hc)).2.1⟩
    · rcases List.mem_cons.1 hc with rfl | hc
      · exact ⟨by decide, by decide⟩
      · exact specSandboxIdChar_not_sep (hsid c hc)
  · exact flatten_dot_labels_head labels tail ht

/-- A host matched by the grammar never ends in a dot. -/
theorem grammar_last_ne_dot {h : Str} (hg : SpecHostGrammar h) : h.getLast? ≠ some '.' := by
  obtain ⟨port, sid, labels, tail, rfl, _, ⟨hsne, hsid⟩, hl, ht⟩ := hg
  intro hlast
  have hmem := List.mem_of_mem_getLast? (Option.mem_def.2 hlast)
  rcases ht with rfl | ⟨ds, rfl, hds, hdig⟩
  · rw [List.append_nil] at hlast hmem
    induction labels using List.reverseRecOn with
    | nil =>
      simp only [List.map_nil, List.flatten_nil, List.append_nil] at hlast
      rw [List.getLast?_append_of_ne_nil _ (by simp)] at hlast
      have h2 : (sid.getLast?) = some '.' := by
        cases sid with
        | nil => exact absurd rfl hsne
        | cons a t => simpa [List.getLast?_cons_cons] using hlast
      have := List.mem_of_mem_getLast? (Option.mem_def.2 h2)
      exact (specSandboxIdChar_not_sep (hsid _ this)).1 rfl
    | append_singleton ls l _ =>
      have hl2 := hl l (by simp)
      simp only [List.map_append, List.map_cons, List.map_nil, List.flatten_append,
        List.flatten_cons, List.flatten_nil, List.append_nil] at hlast
      rw [← List.append_assoc, List.getLast?_append_of_ne_nil _ (by simp)] at hlast
      have h2 : (l.getLast?) = some '.' := by
        cases l with
        | nil => exact absurd rfl hl2.1
        | cons a t => simpa [List.getLast?_cons_cons] using hlast
      exact hl2.2 (List.mem_of_mem_getLast? (Option.mem_def.2 h2))
  · rw [List.getLast?_append_of_ne_nil _ (by simp)] at hlast
    have h2 : (ds.getLast?) = some '.' := by
      cases ds with
      | nil => exact absurd rfl hds
      | cons a t => simpa [List.getLast?_cons_cons] using hlast
    have := List.mem_of_mem_getLast? (Option.mem_def.2 h2)
    exact (specPortChar_not_sep (hdig _ this)).1 rfl

/-- C2, as the code has it: the gate accepts a host exactly when its subdomain label
(the text before the first `:` and before the first `.`) reads `<port>-<sandboxId>`
with the port in `[0-9]+` and the sandbox id in `[A-Za-z0-9_-]+`; every host whose
label reads so is accepted and decodes to that `(sandboxId, port)`; and every host
matched by the host grammar is accepted, with the pair of its parse.  What follows the
label is not looked at. -/
theorem gate_accepts_iff_label (h : Str) :
    (gateAccepts h ↔
      ∃ port sandboxId, specLabel h = port ++ '-' :: sandboxId ∧
        (port ≠ [] ∧ ∀ c ∈ port, specPortChar c) ∧
        (sandboxId ≠ [] ∧ ∀ c ∈ sandboxId, specSandboxIdChar c)) ∧
    (∀ port sandboxId, specLabel h = port ++ '-' :: sandboxId →
      (port ≠ [] ∧ ∀ c ∈ port, specPortChar c) →
      (sandboxId ≠ [] ∧ ∀ c ∈ sandboxId, specSandboxIdChar c) →
      gateAccepts h ∧ getSandboxIdAndPortFromUrl h = (sandboxId, port)) ∧
    (∀ port sandboxId labels tail, SpecHostParse h port sandboxId labels tail →
      gateAccepts h ∧ getSandboxIdAndPortFromUrl h = (sandboxId, port)) := by
  have key : ∀ port sid, specLabel h = port ++ '-' :: sid → (∀ c ∈ port, specPortChar c) →
      getSandboxIdAndPortFromUrl h = (sid, port) := by
    intro port sid hl hport
    exact decode_of_label hl (fun hm => (specPortChar_not_sep (hport _ hm)).2.2 rfl)
  have acc : ∀ port sid, specLabel h = port ++ '-' :: sid →
      (port ≠ [] ∧ ∀ c ∈ port, specPortChar c) →
      (sid ≠ [] ∧ ∀ c ∈ sid, specSandboxIdChar c) →
      gateAccepts h ∧ getSandboxIdAndPortFromUrl h = (sid, port) := by
    intro port sid hl hport hsid
    have hd := key port sid hl hport.2
    refine ⟨?_, hd⟩
    unfold gateAccepts
    rw [hd]
    exact (validateInputs_eq_none sid port).2 ⟨hsid, hport⟩
  refine ⟨⟨?_, ?_⟩, acc, ?_⟩
  · intro hacc
    unfold gateAccepts at hacc
    have hd := decode_eq_label h
    by_cases hm : '-' ∈ specLabel h
    · rw [if_pos hm] at hd
      rw [hd] at hacc
      have hv := (validateInputs_eq_none _ _).1 hacc
      refine ⟨_, _, ?_, hv.2, hv.1⟩
      have := List.takeWhile_append_dropWhile (fun c => c != '-') (specLabel h)
      have hdw : (specLabel h).dropWhile (fun c => c != '-') =
          '-' :: ((specLabel h).dropWhile (fun c => c != '-')).drop 1 := by
        have hmem : '-' ∈ (specLabel h).dropWhile (fun c => c != '-') := by
          rw [← this] at hm
          rcases List.mem_append.1 hm with hm | hm
          · have := List.mem_takeWhile_imp hm
            simp at this
          · exact hm
        cases hdd : (specLabel h).dropWhile (fun c => c != '-') with
        | nil => rw [hdd] at hmem; simp at hmem
        | cons a t =>
          have hh := List.head_dropWhile_not (fun c => c != '-') (specLabel h)
            (by rw [hdd]; simp)
          simp only [hdd, List.head_cons] at hh
          have : a = '-' := by simpa using hh
          rw [this]; rfl
      rw [← hdw]
      exact this.symm
    · rw [if_neg hm] at hd
      rw [hd] at hacc
      exact absurd hacc (by decide)
  · rintro ⟨port, sid, hl, hport, hsid⟩
    exact (acc port sid hl hport hsid).1
  · intro port sid labels tail hp
    exact acc port sid (specLabel_of_parse hp) hp.2.1 hp.2.2.1

/-- C2 as stated fails: `8080-abc.example.com.` (a fully qualified name with its
trailing dot) passes the gate and is not matched by the host grammar. -/
theorem gate_accepts_host_outside_grammar :
    ¬ (gateAccepts "8080-abc.example.com.".toList ↔
        SpecHostGrammar "8080-abc.example.com.".toList) := by
  intro h
  have hacc : gateAccepts "8080-abc.example.com.".toList := by decide
  exact grammar_last_ne_dot (h.1 hacc) (by decide)

/-- C3: `validateInputs` returns an error exactly when the sandbox id is empty, the
port is empty, the sandbox id has a character outside `[A-Za-z0-9_-]`, or the port has
a character outside `[0-9]`; so what it accepts is non-empty and matches both
patterns, and there is no range check on the port: `99999` is accepted. -/
theorem validateInputs_error_iff (sandboxID port : Str) :
    ((validateInputs sandboxID port).isSome = true ↔
      sandboxID = [] ∨ port = [] ∨ (∃ c ∈ sandboxID, ¬ specSandboxIdChar c) ∨
        (∃ c ∈ port, ¬ specPortChar c)) ∧
    (validateInputs sandboxID port = none ↔
      (sandboxID ≠ [] ∧ sandboxIDRegex.MatchString sandboxID = true) ∧
        (port ≠ [] ∧ portRegex.MatchString port = true)) ∧
    validateInputs "abc".toList "99999".toList = none := by
  refine ⟨?_, ?_, by decide⟩
  · have h := validateInputs_eq_none sandboxID port
    rw [Option.isSome_iff_ne_none, ne_eq, h]
    constructor
    · intro hn
      by_contra hc
      push_neg at hc
      exact hn ⟨⟨hc.1, hc.2.2.1⟩, ⟨hc.2.1, hc.2.2.2⟩⟩
    · rintro (h1 | h1 | ⟨c, hc, hn⟩ | ⟨c, hc, hn⟩) hacc
      · exact hacc.1.1 h1
      · exact hacc.2.1 h1
      · exact hn (hacc.1.2 c hc)
      · exact hn (hacc.2.2 c hc)
  · rw [validateInputs_eq_none, sandboxIDRegex_match, portRegex_match]
    tauto

/-- C2, witness: `8080-abc123.example.com:443` parses by the host grammar, is
accepted, and decodes to `(abc123, 8080)`; `8080-abc.example.com.`, outside the
grammar, has the label `8080-abc`, is accepted, and decodes to `(abc, 8080)`. -/
theorem gate_accepts_iff_label_witness :
    (gateAccepts "8080-abc123.example.com:443".toList ∧
      getSandboxIdAndPortFromUrl "8080-abc123.example.com:443".toList
        = ("abc123".toList, "8080".toList)) ∧
    (gateAccepts "8080-abc.example.com.".toList ∧
      getSandboxIdAndPortFromUrl "8080-abc.example.com.".toList
        = ("abc".toList, "8080".toList)) :=
  ⟨(gate_accepts_iff_label "8080-abc123.example.com:443".toList).2.2
      "8080".toList "abc123".toList ["example".toList, "com".toList] ":443".toList
      ⟨by decide, by decide, by decide, by decide,
        Or.inr ⟨"443".toList, rfl, by decide, by decide⟩⟩,
    (gate_accepts_iff_label "8080-abc.example.com.".toList).2.1
      "8080".toList "abc".toList (by decide) (by decide) (by decide)⟩

/-! ## Path joining -/

theorem join_chars (a t : Str) :
    doubleSlashAtJoin a (a ++ t) ↔ a.getLast? = some '/' ∧ t.head? = some '/' := by
  unfold doubleSlashAtJoin
  have h2 : (a ++ t)[a.length]? = t.head? := by
    rw [List.getElem?_append_right (Nat.le_refl _)]
    cases t <;> simp
  rw [h2]
  induction a using List.reverseRecOn with
  | nil => simp
  | append_singleton l c _ =>
    have h1 : (l ++ [c] ++ t)[(l ++ [c]).length - 1]? = some c := by
      rw [List.append_assoc, List.length_append, List.length_singleton, Nat.add_sub_cancel,
        List.getElem?_append_right (Nat.le_refl _)]
      simp
    rw [h1, List.getLast?_concat]
    simp

theorem singleJoiningSlash_cases (a b : Str) :
    singleJoiningSlash a b =
      a ++ (if a.getLast? = some '/' then (if b.head? = some '/' then b.drop 1 else b)
            else (if b.head? = some '/' then b else '/' :: b)) := by
  unfold singleJoiningSlash strings.HasSuffix strings.HasPrefix
  by_cases ha : a.getLast? = some '/' <;> by_cases hb : b.head? = some '/' <;>
    simp [ha, hb]

/-- C7, as the code has it: `singleJoiningSlash a b` is `a` without one trailing
slash, one `/`, then `b` without one leading slash; it starts with `a` and ends with
`b` apart from a dropped boundary slash; and the character where `a` ends and the one
after it are both `/` exactly when `a` ends with `/` and `b` begins with `//`, since
only one slash of `b` is dropped. -/
theorem singleJoiningSlash_join (a b : Str) :
    singleJoiningSlash a b =
        (if a.getLast? = some '/' then a.dropLast else a) ++
          '/' :: (if b.head? = some '/' then b.drop 1 else b) ∧
      a <+: singleJoiningSlash a b ∧
      (if a.getLast? = some '/' ∧ b.head? = some '/' then b.drop 1 else b)
        <:+ singleJoiningSlash a b ∧
      (doubleSlashAtJoin a (singleJoiningSlash a b) ↔
        a.getLast? = some '/' ∧ b.take 2 = ['/', '/']) := by
  rw [singleJoiningSlash_cases]
  refine ⟨?_, List.prefix_append _ _, ?_, ?_⟩
  · by_cases ha : a.getLast? = some '/'
    · obtain ⟨l, rfl⟩ := List.getLast?_eq_some_iff.1 ha
      rcases b with _ | ⟨c, t⟩
      · simp
      · by_cases hc : c = '/' <;> simp [hc]
    · rcases b with _ | ⟨c, t⟩
      · simp [ha]
      · by_cases hc : c = '/' <;> simp [ha, hc]
  · by_cases ha : a.getLast? = some '/' <;> by_cases hb : b.head? = some '/' <;>
      simp only [ha, hb, and_self, and_true, and_false, if_true, if_false]
    · exact List.suffix_append _ _
    · exact List.suffix_append _ _
    · exact List.suffix_append _ _
    · exact (List.suffix_cons '/' b).trans (List.suffix_append a ('/' :: b))
  · rw [join_chars]
    by_cases ha : a.getLast? = some '/'
    · simp only [ha, if_true, true_and]
      rcases b with _ | ⟨c, _ | ⟨d, t⟩⟩
      · simp
      · by_cases hc : c = '/' <;> simp [hc]
      · by_cases hc : c = '/' <;> simp [hc]
    · simp [ha]

/-- C7 as stated fails: joining `/` and `//` gives `//`, where the character at which
`a` ends and the one after it are both `/`. -/
theorem singleJoiningSlash_double_slash :
    singleJoiningSlash "/".toList "//".toList = "//".toList ∧
      doubleSlashAtJoin "/".toList (singleJoiningSlash "/".toList "//".toList) := by
  decide

/-! ## The response interceptor -/

/-- C5: the response interceptor returns a status-200 response unchanged; any other
status becomes 502, with `Content-Type` set to `text/html; charset=utf-8`,
`Content-Length` set to the byte length of the error page, `Content-Encoding` removed
and the body replaced by the error page, whatever the upstream body and headers. -/
theorem ModifyResponse_intercepts (errorPageHTML : Str) (resp : Response) :
    if resp.StatusCode = 200 then ModifyResponse errorPageHTML resp = (resp, none)
    else
      (ModifyResponse errorPageHTML resp).2 = none ∧
      (ModifyResponse errorPageHTML resp).1.StatusCode = 502 ∧
      Header.Values (ModifyResponse errorPageHTML resp).1.Header "Content-Type".toList
        = ["text/html; charset=utf-8".toList] ∧
      Header.Values (ModifyResponse errorPageHTML resp).1.Header "Content-Length".toList
        = [(Nat.repr (String.mk errorPageHTML).utf8ByteSize).toList] ∧
      (ModifyResponse errorPageHTML resp).1.Header "Content-Encoding".toList = none ∧
      (ModifyResponse errorPageHTML resp).1.Body = errorPageHTML := by
  by_cases h : resp.StatusCode = 200
  · simp [ModifyResponse, h]
  · rw [if_neg h]
    have e : ModifyResponse errorPageHTML resp = serveErrorPage errorPageHTML resp := by
      simp [ModifyResponse, h]
    rw [e]
    have k1 : "Content-Type".toList ≠ "Content-Encoding".toList := by decide
    have k2 : "Content-Type".toList ≠ "Content-Length".toList := by decide
    have k3 : "Content-Length".toList ≠ "Content-Encoding".toList := by decide
    refine ⟨rfl, rfl, ?_, ?_, ?_, rfl⟩
    · simp [serveErrorPage, Header.Values, Header.Del, Header.Set, k1, k2]
    · simp [serveErrorPage, Header.Values, Header.Del, Header.Set, k3, sprintd, len]
    · simp [serveErrorPage, Header.Del]

/-! ## The preview resolver and the cache key -/

theorem append_dash_inj : ∀ (p1 p2 x y : Str), '-' ∉ p1 → '-' ∉ p2 →
    p1 ++ '-' :: x = p2 ++ '-' :: y → p1 = p2 ∧ x = y
  | [], [], x, y, _, _, h => by simpa using h
  | [], b :: p2, x, y, _, h2, h => by
    simp only [List.nil_append, List.cons_append, List.cons.injEq] at h
    exact absurd (h.1 ▸ List.mem_cons_self _ _) h2
  | a :: p1, [], x, y, h1, _, h => by
    simp only [List.nil_append, List.cons_append, List.cons.injEq] at h
    exact absurd (h.1 ▸ List.mem_cons_self _ _) h1
  | a :: p1, b :: p2, x, y, h1, h2, h => by
    simp only [List.cons_append, List.cons.injEq] at h
    have ih := append_dash_inj p1 p2 x y (fun m => h1 (List.mem_cons_of_mem _ m))
      (fun m => h2 (List.mem_cons_of_mem _ m)) h.2
    exact ⟨by rw [h.1, ih.1], ih.2⟩

/-- The key determines the pair as soon as the ports carry no dash. -/
theorem cacheKey_inj (s1 p1 s2 p2 : Str) (h1 : '-' ∉ p1) (h2 : '-' ∉ p2)
    (h : cacheKey s1 p1 = cacheKey s2 p2) : s1 = s2 ∧ p1 = p2 := by
  unfold cacheKey at h
  have hr := congrArg List.reverse h
  simp only [List.reverse_append, String.toList, List.reverse_cons, List.reverse_nil,
    List.nil_append, List.append_assoc, List.singleton_append] at hr
  have := append_dash_inj p1.reverse p2.reverse s1.reverse s2.reverse
    (by simpa using h1) (by simpa using h2) hr
  exact ⟨List.reverse_injective this.2, List.reverse_injective this.1⟩

theorem validated_port_no_dash {s p : Str} (h : validateInputs s p = none) : '-' ∉ p :=
  fun hm => (specPortChar_not_sep (((validateInputs_eq_none s p).1 h).2.2 _ hm)).2.2 rfl

theorem Cache_Get_Set_ne (c : Cache) (t now : Nat) (k k' : Str) (x : PreviewResponse)
    (d : Int) (hk : k' ≠ k) : (c.Set t k x d).Get now k' = c.Get now k' := by
  simp [Cache.Get, Cache.Set, hk]

theorem Cache_Get_Set_same (c : Cache) (t : Nat) (k : Str) (x : PreviewResponse) (d : Int) :
    (c.Set t k x d).Get t k = some x := by
  simp only [Cache.Get, Cache.Set, if_true]
  split_ifs <;> simp_all

/-- The cache after `getPreview` is the old one, or the old one with the key of the
call set. -/
theorem getPreview_cache (config : Config) (w : World) (c : Cache) (s p : Str) :
    (getPreview config w c s p).cache = c ∨
      ∃ x, (getPreview config w c s p).cache = c.Set w.nowSet (cacheKey s p) x DefaultExpiration := by
  unfold getPreview
  split
  · exact Or.inl rfl
  · split
    · exact Or.inl rfl
    · split
      · exact Or.inl rfl
      · split_ifs
        · exact Or.inl rfl
        · split
          · exact Or.inl rfl
          · exact Or.inr ⟨_, rfl⟩

/-- C6: for two pairs that `validateInputs` accepts, the cache keys
`s1 + "-" + p1` and `s2 + "-" + p2` are equal only if the pairs are equal; so what
`getPreview` stores for one validated pair is not what a lookup for a different
validated pair returns: that lookup sees the cache as it was before. -/
theorem cacheKey_separates_validated_pairs (config : Config) (w : World) (c : Cache)
    (now : Nat) (s1 p1 s2 p2 : Str)
    (h1 : validateInputs s1 p1 = none) (h2 : validateInputs s2 p2 = none) :
    (cacheKey s1 p1 = cacheKey s2 p2 → s1 = s2 ∧ p1 = p2) ∧
      ((s1, p1) ≠ (s2, p2) →
        (getPreview config w c s1 p1).cache.Get now (cacheKey s2 p2)
          = c.Get now (cacheKey s2 p2)) := by
  have inj := cacheKey_inj s1 p1 s2 p2 (validated_port_no_dash h1)
    (validated_port_no_dash h2)
  refine ⟨inj, fun hne => ?_⟩
  rcases getPreview_cache config w c s1 p1 with e | ⟨x, e⟩
  · rw [e]
  · rw [e]
    apply Cache_Get_Set_ne
    intro hk
    have := inj hk.symm
    exact hne (by rw [this.1, this.2])

/-- C6, witness: the validated pairs `(a-1, 2)` and `(a, 12)` have different keys, and
resolving the first on an empty cache leaves the lookup of the second empty. -/
theorem cacheKey_separates_validated_pairs_witness :
    validateInputs "a-1".toList "2".toList = none ∧
      validateInputs "a".toList "12".toList = none ∧
      (cacheKey "a-1".toList "2".toList = cacheKey "a".toList "12".toList →
        "a-1".toList = "a".toList ∧ "2".toList = "12".toList) ∧
      (("a-1".toList, "2".toList) ≠ ("a".toList, "12".toList) →
        (getPreview demoConfig (demoWorld 200) demoCache "a-1".toList "2".toList).cache.Get 2500
            (cacheKey "a".toList "12".toList)
          = demoCache.Get 2500 (cacheKey "a".toList "12".toList)) :=
  ⟨by decide, by decide,
    cacheKey_separates_validated_pairs demoConfig (demoWorld 200) demoCache 2500
      "a-1".toList "2".toList "a".toList "12".toList (by decide) (by decide)⟩

/-- C9: on a cache miss `getPreview` sends at most one control-plane request; it
returns a preview exactly when the request was built, the exchange gave a response of
status 200 and its body decoded, and that preview is then stored under
`sandboxId + "-" + port`; in every other case (another status, a transport failure, a
decode failure) it returns an error and the cache is as it was. -/
theorem getPreview_on_miss (config : Config) (w : World) (c : Cache)
    (sandboxId port : Str)
    (hmiss : c.Get w.nowGet (cacheKey sandboxId port) = none) :
    (getPreview config w c sandboxId port).calls.length ≤ 1 ∧
    (∀ preview, (getPreview config w c sandboxId port).result = .ok preview ↔
      w.NewRequest "GET".toList (apiUrl config sandboxId port) = none ∧
        ∃ resp, w.Do (apiRequest config sandboxId port) = .ok resp ∧
          resp.StatusCode = 200 ∧ w.jsonDecode resp.Body = .ok preview) ∧
    (∀ preview, (getPreview config w c sandboxId port).result = .ok preview →
      (getPreview config w c sandboxId port).cache
          = c.Set w.nowSet (sandboxId ++ "-".toList ++ port) preview DefaultExpiration ∧
        (getPreview config w c sandboxId port).cache.Get w.nowSet
          (sandboxId ++ "-".toList ++ port) = some preview) ∧
    ((∀ preview, (getPreview config w c sandboxId port).result ≠ .ok preview) →
      (∃ err, (getPreview config w c sandboxId port).result = .error err) ∧
        (getPreview config w c sandboxId port).cache = c) := by
  unfold getPreview
  rw [hmiss]
  dsimp only
  cases hn : w.NewRequest "GET".toList (apiUrl config sandboxId port) with
  | some err => simp
  | none =>
    cases hd : w.Do (apiRequest config sandboxId port) with
    | error err => simp
    | ok resp =>
      dsimp only
      by_cases hs : resp.StatusCode = 200
      · rw [if_neg (by simpa using hs)]
        cases hj : w.jsonDecode resp.Body with
        | error err => simp [hs, hj]
        | ok pv =>
          dsimp only
          refine ⟨by simp, ?_⟩
          refine ⟨fun preview => ?_, fun preview e => ?_, fun hall => absurd rfl (hall pv)⟩
          · constructor
            · intro e
              have e1 : pv = preview := by injection e
              exact ⟨rfl, resp, rfl, hs, by rw [hj, e1]⟩
            · rintro ⟨_, resp2, e2, _, h3⟩
              have : resp2 = resp := by injection e2 with e2; exact e2.symm
              rw [this, hj] at h3
              exact h3
          · have e1 : pv = preview := by injection e
            subst e1
            exact ⟨rfl, Cache_Get_Set_same _ _ _ _ _⟩
      · simp [hs]

/-- C9, witness: on the empty cache a control plane answering 500 gives an error and
one request, and one answering 200 gives the decoded preview, found in the cache
afterwards. -/
theorem getPreview_on_miss_witness :
    demoCache.Get (demoWorld 500).nowGet (cacheKey "abc123".toList "8080".toList) = none ∧
      (getPreview demoConfig (demoWorld 500) demoCache "abc123".toList
        "8080".toList).calls.length ≤ 1 ∧
      (getPreview demoConfig (demoWorld 200) demoCache "abc123".toList
        "8080".toList).cache.Get (demoWorld 200).nowSet
          ("abc123".toList ++ "-".toList ++ "8080".toList) = some demoPreview :=
  ⟨rfl,
    (getPreview_on_miss demoConfig (demoWorld 500) demoCache "abc123".toList
      "8080".toList rfl).1,
    ((getPreview_on_miss demoConfig (demoWorld 200) demoCache "abc123".toList
      "8080".toList rfl).2.2.1 demoPreview rfl).2⟩

/-! ## The request director -/

/-- The join written out: `a` without one trailing slash, a slash, `b` without one
leading slash. -/
theorem singleJoiningSlash_closed (a b : Str) :
    singleJoiningSlash a b =
      (if a.getLast? = some '/' then a.dropLast else a) ++
        '/' :: (if b.head? = some '/' then b.drop 1 else b) := by
  rw [singleJoiningSlash_cases]
  by_cases ha : a.getLast? = some '/'
  · obtain ⟨l, rfl⟩ := List.getLast?_eq_some_iff.1 ha
    rcases b with _ | ⟨c, t⟩
    · simp
    · by_cases hc : c = '/' <;> simp [hc]
  · rcases b with _ | ⟨c, t⟩
    · simp [ha]
    · by_cases hc : c = '/' <;> simp [ha, hc]

/-- C4: when the preview of the request's host resolves to `preview` and its URL
parses to `targetUrl`, the director leaves the outbound request with the scheme and
host of `targetUrl`, the path `singleJoiningSlash targetUrl.Path` of the original
path (the target path without one trailing slash, a slash, the original path without
one leading slash), `Host` equal to the target host, and exactly one
`X-Daytona-Preview-Token` value, the token of `preview`, whatever the client sent
under that name. -/
theorem director_rewrites (config : Config) (w : World) (c : Cache) (req : Request)
    (preview : PreviewResponse) (targetUrl : URL)
    (hres : (getPreview config w c (getSandboxIdAndPortFromUrl req.Host).1
      (getSandboxIdAndPortFromUrl req.Host).2).result = .ok preview)
    (hparse : w.urlParse preview.URL = .ok targetUrl) :
    (director config w c req).1.URL.Scheme = targetUrl.Scheme ∧
      (director config w c req).1.URL.Host = targetUrl.Host ∧
      (director config w c req).1.URL.Path = singleJoiningSlash targetUrl.Path req.URL.Path ∧
      (director config w c req).1.Host = targetUrl.Host ∧
      Header.Values (director config w c req).1.Header "X-Daytona-Preview-Token".toList
        = [preview.Token] ∧
      (director config w c req).1.URL.Path =
        (if targetUrl.Path.getLast? = some '/' then targetUrl.Path.dropLast
          else targetUrl.Path) ++
          '/' :: (if req.URL.Path.head? = some '/' then req.URL.Path.drop 1
            else req.URL.Path) := by
  have hp : (director config w c req).1.URL.Path
      = singleJoiningSlash targetUrl.Path req.URL.Path := by
    unfold director
    simp [hres, hparse]
  refine ⟨?_, ?_, hp, ?_, ?_, ?_⟩
  · unfold director
    simp [hres, hparse]
  · unfold director
    simp [hres, hparse]
  · unfold director
    simp [hres, hparse]
  · unfold director
    simp [hres, hparse, Header.Values, Header.Set]
  · rw [hp, singleJoiningSlash_closed]

/-- C4, witness: host `8080-abc123.example.com`, original path `/index.html`, a
forged client token, and the preview `https://u.internal/app` with token `T` give
`https://u.internal/app/index.html`, `Host` `u.internal` and the single token `T`. -/
theorem director_rewrites_witness :
    (getPreview demoConfig (demoWorld 200) demoCache
        (getSandboxIdAndPortFromUrl demoRequest.Host).1
        (getSandboxIdAndPortFromUrl demoRequest.Host).2).result = .ok demoPreview ∧
      (demoWorld 200).urlParse demoPreview.URL
        = .ok ⟨"https".toList, "u.internal".toList, "/app".toList⟩ ∧
      ((director demoConfig (demoWorld 200) demoCache demoRequest).1.URL.Scheme
          = "https".toList ∧
        (director demoConfig (demoWorld 200) demoCache demoRequest).1.URL.Host
          = "u.internal".toList ∧
        (director demoConfig (demoWorld 200) demoCache demoRequest).1.URL.Path
          = "/app/index.html".toList ∧
        (director demoConfig (demoWorld 200) demoCache demoRequest).1.Host
          = "u.internal".toList ∧
        Header.Values (director demoConfig (demoWorld 200) demoCache demoRequest).1.Header
          "X-Daytona-Preview-Token".toList = ["T".toList]) := by
  have h := director_rewrites demoConfig (demoWorld 200) demoCache demoRequest demoPreview
    ⟨"https".toList, "u.internal".toList, "/app".toList⟩ rfl rfl
  exact ⟨rfl, rfl, h.1, h.2.1, h.2.2.1.trans (by decide), h.2.2.2.1, h.2.2.2.2.1⟩

/-! ## The front dispatcher -/

theorem ServeHTTP_not_health (w : ResponseWriter) (r : Request)
    (hpath : r.URL.Path ≠ "/health".toList) :
    ServeHTTP w r =
      if gateAccepts r.Host then .forwarded w r
      else .responded (httpError w "Bad Request".toList 400) := by
  unfold ServeHTTP gateAccepts
  rw [if_neg hpath]
  dsimp only
  split
  · next e h => rw [if_neg (by rw [h]; exact Option.some_ne_none e)]
  · next h => rw [if_pos h]

/-- C8, as the code has it: for a request whose path is not `/health`,
`Proxy.ServeHTTP` answers by itself, with status 400, a `text/plain` content type and
the body `Bad Request` followed by a newline (the line `http.Error` prints), exactly
when decoding and validating the host fails, and otherwise hands the request to the
reverse proxy; a label without `-` and a sandbox part with a character outside
`[A-Za-z0-9_-]` both fail. -/
theorem ServeHTTP_bad_request_iff_gate_fails (r : Request)
    (hpath : r.URL.Path ≠ "/health".toList) :
    ((ServeHTTP ResponseWriter.fresh r).answer = some (some 400, "Bad Request\n".toList) ↔
      ¬ gateAccepts r.Host) ∧
    (ServeHTTP ResponseWriter.fresh r
        = .responded (httpError ResponseWriter.fresh "Bad Request".toList 400) ↔
      ¬ gateAccepts r.Host) ∧
    (ServeHTTP ResponseWriter.fresh r = .forwarded ResponseWriter.fresh r ↔
      gateAccepts r.Host) ∧
    Header.Values (httpError ResponseWriter.fresh "Bad Request".toList 400).Header
      "Content-Type".toList = ["text/plain; charset=utf-8".toList] ∧
    ('-' ∉ specLabel r.Host → ¬ gateAccepts r.Host) ∧
    ((∃ c ∈ (getSandboxIdAndPortFromUrl r.Host).1, ¬ specSandboxIdChar c) →
      ¬ gateAccepts r.Host) := by
  rw [ServeHTTP_not_health _ r hpath]
  refine ⟨?_, ?_, ?_, by decide, ?_, ?_⟩
  · by_cases hg : gateAccepts r.Host
    · simp [hg, Served.answer]
    · simp only [hg, if_false, not_false_eq_true, iff_true]
      rfl
  · by_cases hg : gateAccepts r.Host <;> simp [hg]
  · by_cases hg : gateAccepts r.Host <;> simp [hg]
  · intro hm hg
    unfold gateAccepts at hg
    rw [decode_eq_label, if_neg hm] at hg
    exact absurd hg (by decide)
  · rintro ⟨c, hc, hn⟩ hg
    exact hn (((validateInputs_eq_none _ _).1 hg).1.2 c hc)

/-- C8, witness: `GET /` on host `abc.example.com` is answered with 400 and not
forwarded. -/
theorem ServeHTTP_bad_request_iff_gate_fails_witness :
    ("/".toList ≠ "/health".toList) ∧
      (ServeHTTP ResponseWriter.fresh
          ⟨⟨[], [], "/".toList⟩, "abc.example.com".toList, Header.empty⟩).answer
        = some (some 400, "Bad Request\n".toList) ∧
      (ServeHTTP ResponseWriter.fresh
          ⟨⟨[], [], "/".toList⟩, "8080-abc$.example.com".toList, Header.empty⟩).answer
        = some (some 400, "Bad Request\n".toList) :=
  ⟨by decide,
    (ServeHTTP_bad_request_iff_gate_fails
      ⟨⟨[], [], "/".toList⟩, "abc.example.com".toList, Header.empty⟩ (by decide)).1.2
      (by decide),
    (ServeHTTP_bad_request_iff_gate_fails
      ⟨⟨[], [], "/".toList⟩, "8080-abc$.example.com".toList, Header.empty⟩ (by decide)).1.2
      (by decide)⟩

/-- C8 as stated fails on the body: for `GET /` on host `abc.example.com` the gate
fails, and the answer is status 400 with the body `Bad Request` and a newline, not the
bare text `Bad Request`. -/
theorem ServeHTTP_bad_request_body_has_newline :
    ¬ gateAccepts "abc.example.com".toList ∧
      (ServeHTTP ResponseWriter.fresh
          ⟨⟨[], [], "/".toList⟩, "abc.example.com".toList, Header.empty⟩).answer
        = some (some 400, "Bad Request\n".toList) ∧
      (ServeHTTP ResponseWriter.fresh
          ⟨⟨[], [], "/".toList⟩, "abc.example.com".toList, Header.empty⟩).answer
        ≠ some (some 400, "Bad Request".toList) := by
  decide

/-- C10, as the code has it: for a request with path `/health`, whatever its host,
`Proxy.ServeHTTP` answers by itself with status 200, `Content-Type: application/json`
and the body `\x7b"status":"ok"\x7d` followed by a newline (the line `Encode` writes);
the host is not consulted and the request is not forwarded. -/
theorem ServeHTTP_health (r : Request) (hpath : r.URL.Path = "/health".toList) :
    (ServeHTTP ResponseWriter.fresh r).answer
        = some (some 200, "\x7b\"status\":\"ok\"\x7d\n".toList) ∧
      (∃ w, ServeHTTP ResponseWriter.fresh r = .responded w ∧
        Header.Values w.Header "Content-Type".toList = ["application/json".toList]) ∧
      (ServeHTTP ResponseWriter.fresh r).isForwarded = false ∧
      (∀ host, ServeHTTP ResponseWriter.fresh { r with Host := host }
        = ServeHTTP ResponseWriter.fresh r) := by
  have e : ∀ q : Request, q.URL.Path = "/health".toList →
      ServeHTTP ResponseWriter.fresh q = .responded
        (jsonEncode { ResponseWriter.fresh with
          Header := Header.Set ResponseWriter.fresh.Header "Content-Type".toList
            "application/json".toList } "status".toList "ok".toList) := by
    intro q hq
    unfold ServeHTTP
    rw [if_pos hq]
  refine ⟨?_, ⟨_, e r hpath, by decide⟩, ?_, fun host => ?_⟩
  · rw [e r hpath]; decide
  · rw [e r hpath]; rfl
  · rw [e r hpath]
    exact e _ hpath

/-- C10, witness: `GET /health` on the undecodable host `abc.example.com` is answered
with 200 and the JSON line. -/
theorem ServeHTTP_health_witness :
    ("/health".toList = "/health".toList) ∧
      (ServeHTTP ResponseWriter.fresh
          ⟨⟨[], [], "/health".toList⟩, "abc.example.com".toList, Header.empty⟩).answer
        = some (some 200, "\x7b\"status\":\"ok\"\x7d\n".toList) :=
  ⟨rfl,
    (ServeHTTP_health
      ⟨⟨[], [], "/health".toList⟩, "abc.example.com".toList, Header.empty⟩ rfl).1⟩

/-- C10 as stated fails on the body: the answer to `GET /health` is the JSON object
followed by a newline, not the bare object. -/
theorem ServeHTTP_health_body_has_newline :
    (ServeHTTP ResponseWriter.fresh
          ⟨⟨[], [], "/health".toList⟩, "abc.example.com".toList, Header.empty⟩).answer
        = some (some 200, "\x7b\"status\":\"ok\"\x7d\n".toList) ∧
      (ServeHTTP ResponseWriter.fresh
          ⟨⟨[], [], "/health".toList⟩, "abc.example.com".toList, Header.empty⟩).answer
        ≠ some (some 200, "\x7b\"status\":\"ok\"\x7d".toList) := by
  decide

end DaytonaProxy
